import Mathlib

/-!
The paging, rate-limit and resume loop of `timeline.go` (hugo_twitter_feed)

A shallow embedding of `src/timeline.go`.  The program is a single `main`
whose collaborators (the file system, the flag package, the twittergo client)
are modelled as explicit inputs: the answers the environment gives, in the
order in which the program asks for them.

* strings are sequences of code points (`List Char` for file contents,
  `String` for query values);
* `uint64` values are `Nat` below `2^64`; the one subtraction of the source,
  `tweet.Id() - 1`, wraps at zero (`subOne64`, equal to `(x + (2^64 - 1)) % 2^64`);
* instants are `Int` nanoseconds; a `time.Duration` is an `int64`: `Sub`
  saturates and `+` wraps (`timeSub`, `wrapInt64`);
* `int` counters (`total`, `SetTotal`) are `Int`.
-/

namespace Timeline

/-! ## url.Values -/

/-- The `url.Values` map of the query, restricted to what the program does with
it: every key holds one value.  Kept as an association list. -/
abbrev Values := List (String × String)

/-- `query.Set(k, v)`: replaces the value stored under `k`, or adds the key. -/
def Values.Set : Values → String → String → Values
  | [], k, v => [(k, v)]
  | (k1, v1) :: rest, k, v =>
    if k1 = k then (k, v) :: rest else (k1, v1) :: Values.Set rest k v

/-- Lookup of a query parameter; `none` when the key is not in the map. -/
def Values.lookup : Values → String → Option String
  | [], _ => none
  | (k1, v1) :: rest, k => if k1 = k then some v1 else Values.lookup rest k

/-! ## rsl: read a specific line of a file -/

/-- The errors `rsl` can return. -/
inductive RslError where
  | invalidRequest (n : Int)   -- "invalid request: line %d"
  | openFailed                 -- error of os.Open
  | noLines                    -- "no lines in file"
  | onlyOneLine                -- "only 1 line"
  | onlyLines (lnum : Nat)     -- "only %d lines"
  | readFailed                 -- a read error other than io.EOF
  | lineEmpty (n : Int)        -- "line %d empty"
  deriving DecidableEq, Repr

/-- Error value of `bufio.Reader.ReadString`. -/
inductive ReadError where
  | EOF
  | other
  deriving DecidableEq, Repr

/-- A `bufio.Reader` over an opened file: the bytes not yet consumed, and
whether the underlying read fails (with an error that is not io.EOF) once they
are used up. -/
structure Reader where
  buf : List Char
  broken : Bool
  deriving DecidableEq, Repr

/-- Splits at the first occurrence of `delim`: the part up to and including
the delimiter, and what follows it. -/
def splitDelim (delim : Char) : List Char → Option (List Char × List Char)
  | [] => none
  | c :: cs =>
    if c = delim then some ([c], cs)
    else match splitDelim delim cs with
      | some (line, rest) => some (c :: line, rest)
      | none => none

/-- `bf.ReadString(delim)`: reads until the first occurrence of the delimiter
and returns the data up to and including it; if an error is met before a
delimiter, returns the data read before the error and the error. -/
def Reader.ReadString (bf : Reader) (delim : Char) :
    List Char × Option ReadError × Reader :=
  match splitDelim delim bf.buf with
  | some (line, rest) => (line, none, { bf with buf := rest })
  | none =>
    (bf.buf, some (if bf.broken then ReadError.other else ReadError.EOF),
      { bf with buf := [] })

/-- The `for lnum := 0; lnum < n; lnum++` loop of `rsl` with `todo = n - lnum`
iterations left, followed by the test on the last line read. -/
def rslLoop (n : Int) (bf : Reader) (line : List Char) (lnum : Nat) :
    Nat → Except RslError (List Char)
  | 0 => if line = [] then .error (.lineEmpty n) else .ok line
  | todo + 1 =>
    match bf.ReadString '\n' with
    | (_, some ReadError.EOF, _) =>
      .error (match lnum with
        | 0 => RslError.noLines
        | 1 => RslError.onlyOneLine
        | _ => RslError.onlyLines lnum)
    | (_, some ReadError.other, _) => .error .readFailed
    | (l, none, bf1) => rslLoop n bf1 l (lnum + 1) todo

/-- `rsl(fn, n)`: line `n` of the file, delimiter included.  `file` is the
result of `os.Open(fn)`: `none` when the open fails. -/
def rsl (file : Option Reader) (n : Int) : Except RslError (List Char) :=
  if n < 1 then .error (.invalidRequest n)
  else match file with
    | none => .error .openFailed
    | some bf => rslLoop n bf [] 0 n.toNat

/-- `unicode.IsSpace`. -/
def isSpace (c : Char) : Bool :=
  let n := c.toNat
  n = 0x09 || n = 0x0A || n = 0x0B || n = 0x0C || n = 0x0D || n = 0x20 ||
  n = 0x85 || n = 0xA0 || n = 0x1680 || (0x2000 ≤ n && n ≤ 0x200A) ||
  n = 0x2028 || n = 0x2029 || n = 0x202F || n = 0x205F || n = 0x3000

/-- `strings.TrimSpace`: leading and trailing white space removed. -/
def TrimSpace (s : List Char) : List Char :=
  ((s.dropWhile isSpace).reverse.dropWhile isSpace).reverse

/-! ## Arguments -/

/-- The `Args` struct filled by `parseArgs`. -/
structure Args where
  ScreenName : String
  OutputFile : String
  SetCount : Int
  SetBatch : Int
  SetTotal : Int
  SinceID : String
  deriving DecidableEq, Repr

/-- The values `parseArgs` yields when no flag is given. -/
def defaultArgs : Args :=
  { ScreenName := "twitterapi", OutputFile := "content/user_timeline",
    SetCount := 100, SetBatch := 10, SetTotal := 10, SinceID := "" }

/-! ## The rate-limit wait -/

/-- `time.Second`, in nanoseconds. -/
def second : Int := 1000000000

/-- The constant `minwait = time.Duration(10) * time.Second`. -/
def minwait : Int := 10 * second

/-- The smallest `time.Duration`, an `int64` count of nanoseconds. -/
def minDuration : Int := -(2 ^ 63)

/-- The largest `time.Duration`. -/
def maxDuration : Int := 2 ^ 63 - 1

/-- `t.Sub(u)` for two instants given in nanoseconds: the duration `t - u`, or
the smallest or largest duration when `t - u` does not fit in one. -/
def timeSub (t u : Int) : Int :=
  if t - u < minDuration then minDuration
  else if maxDuration < t - u then maxDuration
  else t - u

/-- The value an `int64` holds after an operation whose exact result is `x`:
`x` reduced modulo `2^64` into the range from `-2^63` to `2^63 - 1`. -/
def wrapInt64 (x : Int) : Int := (x + 2 ^ 63) % 2 ^ 64 - 2 ^ 63

/-- The duration slept on a `RateLimitError` whose reset time is `reset`, when
`time.Now()` is `now`:
`dur := rle.Reset.Sub(time.Now()) + time.Second; if dur < minwait { dur = minwait }`,
in `int64` arithmetic: `Sub` saturates and the addition wraps. -/
def rateLimitWait (reset now : Int) : Int :=
  let dur := wrapInt64 (timeSub reset now + second)
  if dur < minwait then minwait else dur

/-! ## The paging loop -/

/-- What happens to one tweet of a page inside the `for _, tweet := range`
loop. -/
inductive SinkResult where
  | marshalFailed   -- json.MarshalIndent returns an error
  | createFailed    -- os.Create of the output file returns an error
  | written         -- the file is created and the tweet written to it
  deriving DecidableEq, Repr

/-- A tweet of a page, together with the answer the file system gives when the
loop tries to store it. -/
structure Tweet where
  rawId : Nat
  sink : SinkResult
  deriving DecidableEq, Repr

/-- `tweet.Id()`, a `uint64`. -/
def Tweet.Id (t : Tweet) : Nat := t.rawId % 2 ^ 64

/-- The answer of the environment to one iteration of `BatchLoop`. -/
inductive Fetch where
  | newRequestFailed                 -- http.NewRequest returns an error
  | sendFailed                       -- client.SendRequest returns an error
  | rateLimited (reset now : Int)    -- Parse returns a RateLimitError
  | parseFailed (results : List Tweet)  -- Parse returns another error
  | parsed (results : List Tweet)    -- Parse succeeds
  deriving DecidableEq, Repr

/-- The variables of `main` that the loop reads and writes. -/
structure LoopState where
  max_id : Nat
  tweet_id : Nat
  total : Int
  query : Values
  deriving DecidableEq, Repr

/-- What the program does that can be observed from outside. -/
inductive Event where
  | request (query : Values)      -- a GET request built from query.Encode()
  | sleep (dur : Int)             -- time.Sleep(dur)
  | wrote (id : Nat) (total : Int)  -- item file of tweet `id` written
  deriving DecidableEq, Repr

/-- How the processing of a page ends. -/
inductive PageEnd where
  | next (st : LoopState)       -- the range loop ran to its end
  | breakLoop (st : LoopState)  -- break BatchLoop
  | exit (st : LoopState)       -- os.Exit(1)
  deriving DecidableEq, Repr

/-- How a run of `BatchLoop` ends. -/
inductive LoopEnd where
  | done (st : LoopState)     -- left by break: the code after the loop runs
  | exit (st : LoopState)     -- os.Exit(1): the process is gone
  | waiting (st : LoopState)  -- the environment has not answered yet
  deriving DecidableEq, Repr

/-- The state of a page end. -/
def PageEnd.state : PageEnd → LoopState
  | .next st => st
  | .breakLoop st => st
  | .exit st => st

/-- The state of a loop end. -/
def LoopEnd.state : LoopEnd → LoopState
  | .done st => st
  | .exit st => st
  | .waiting st => st

/-- The value of `x - 1` for a `uint64` `x` (so `x < 2^64`): it wraps to
`2^64 - 1` at zero, which is `(x + (2^64 - 1)) % 2^64` (`subOne64_eq_mod`). -/
def subOne64 (x : Nat) : Nat := if x = 0 then 2 ^ 64 - 1 else x - 1

/-- The three assignments after a tweet is stored:
`max_id = tweet.Id() - 1; tweet_id = tweet.Id(); total += 1`. -/
def LoopState.stored (st : LoopState) (tweet : Tweet) : LoopState :=
  { st with max_id := subOne64 tweet.Id, tweet_id := tweet.Id, total := st.total + 1 }

/-- The `for _, tweet := range *results` loop. -/
def processPage (args : Args) : LoopState → List Tweet → PageEnd × List Event
  | st, [] => (.next st, [])
  | st, tweet :: rest =>
    match tweet.sink with
    | .marshalFailed => (.exit st, [])
    | .createFailed => processPage args st rest
    | .written =>
      let st1 := st.stored tweet
      if st1.total ≥ args.SetTotal then
        (.breakLoop st1, [.wrote tweet.Id st1.total])
      else
        let r := processPage args st1 rest
        (r.1, .wrote tweet.Id st1.total :: r.2)

/-- The head of the loop body:
`if max_id != 0 { query.Set("max_id", fmt.Sprintf("%v", max_id)) }`. -/
def setMaxId (st : LoopState) : LoopState :=
  if st.max_id ≠ 0 then
    { st with query := st.query.Set "max_id" (toString st.max_id) }
  else st

/-- The request the next iteration builds from state `st`. -/
def nextRequest (st : LoopState) : Values := (setMaxId st).query

/-- `BatchLoop`, against the answers `fetches` of the environment. -/
def batchLoop (args : Args) : LoopState → List Fetch → LoopEnd × List Event
  | st, [] => (.waiting st, [])
  | st, f :: rest =>
    let st1 := setMaxId st
    match f with
    | .newRequestFailed => (.exit st1, [])
    | .sendFailed => (.exit st1, [.request st1.query])
    | .rateLimited reset now =>
      let r := batchLoop args st1 rest
      (r.1, .request st1.query :: .sleep (rateLimitWait reset now) :: r.2)
    | .parseFailed results | .parsed results =>
      if results.length = 0 then (.done st1, [.request st1.query])
      else
        match processPage args st1 results with
        | (.breakLoop st2, ev) => (.done st2, .request st1.query :: ev)
        | (.exit st2, ev) => (.exit st2, .request st1.query :: ev)
        | (.next st2, ev) =>
          let r := batchLoop args st2 rest
          (r.1, .request st1.query :: (ev ++ r.2))

/-! ## main -/

/-- Everything the environment answers during one run. -/
structure World where
  lastIdFile : Option Reader   -- os.Open("content/last_id"), none on failure
  credentials : Bool           -- LoadCredentials succeeds
  fetches : List Fetch         -- the answers to the iterations of BatchLoop
  lastIdCreate : Bool          -- os.Create("content/last_id") succeeds
  deriving DecidableEq, Repr

/-- The result of a run of `main`. -/
structure Run where
  loopEnd : Option LoopEnd       -- none when the loop is never entered
  events : List Event
  lastIdWrite : Option String    -- the string handed to last_if.WriteString
  deriving DecidableEq, Repr

/-- The variable `fileLastID` after the first statement of `main`. -/
def loadLastID (file : Option Reader) : String :=
  match rsl file 1 with
  | .ok line => String.mk (TrimSpace line)
  | .error _ => ""

/-- The value of `args.SinceID` after the `if args.SinceID == ""` block. -/
def resolveSince (args : Args) (fileLastID : String) : String :=
  if args.SinceID = "" then
    if fileLastID ≠ "" then fileLastID else args.SinceID
  else args.SinceID

/-- The query and the variables as they are when `BatchLoop` is entered. -/
def initState (args : Args) (fileLastID : String) : LoopState :=
  let since := resolveSince args fileLastID
  let q0 : Values := []
  let q1 := q0.Set "count" (toString args.SetCount)
  let q2 := q1.Set "screen_name" args.ScreenName
  let q3 := if since ≠ "" then q2.Set "since_id" since else q2
  { max_id := 0, tweet_id := 0, total := 0, query := q3 }

/-- The code after the loop: the content written to `content/last_id`, if the
file could be created. -/
def saveLastID (created : Bool) (tweet_id : Nat) : Option String :=
  if created then some (toString tweet_id ++ "\n") else none

/-- The function `main`. -/
def main (args : Args) (w : World) : Run :=
  let fileLastID := loadLastID w.lastIdFile
  if w.credentials then
    let r := batchLoop args (initState args fileLastID) w.fetches
    match r.1 with
    | .done st =>
      { loopEnd := some r.1, events := r.2,
        lastIdWrite := saveLastID w.lastIdCreate st.tweet_id }
    | _ => { loopEnd := some r.1, events := r.2, lastIdWrite := none }
  else
    { loopEnd := none, events := [], lastIdWrite := none }

/-- The content of `content/last_id` after a run, given its content before
(`none`: no such file). -/
def lastIdFileAfter (before : Option String) (r : Run) : Option String :=
  match r.lastIdWrite with
  | some s => some s
  | none => before

/-! ## Observations on the events of a run -/

/-- The requests issued, in order. -/
def requests : List Event → List Values
  | [] => []
  | .request q :: rest => q :: requests rest
  | _ :: rest => requests rest

/-- The ids of the item files written, in order. -/
def writtenIds : List Event → List Nat
  | [] => []
  | .wrote id _ :: rest => id :: writtenIds rest
  | _ :: rest => writtenIds rest

/-- The values the counter `total` takes, in order, after each write. -/
def totals : List Event → List Int
  | [] => []
  | .wrote _ t :: rest => t :: totals rest
  | _ :: rest => totals rest

/-- The durations slept, in order. -/
def sleeps : List Event → List Int
  | [] => []
  | .sleep d :: rest => d :: sleeps rest
  | _ :: rest => sleeps rest

/-- The tweets of a page stored successfully. -/
def storedOf (page : List Tweet) : List Tweet :=
  page.filter (fun t => t.sink = SinkResult.written)

/-- A page of tweets that are all stored successfully. -/
def pageOf (ids : List Nat) : List Tweet :=
  ids.map (fun i => { rawId := i, sink := SinkResult.written })

/-! ## Scenarios -/

/-- The default arguments with a cap of zero. -/
def capZeroArgs : Args := { defaultArgs with SetTotal := 0 }

/-- The default arguments with a cap of three. -/
def capThreeArgs : Args := { defaultArgs with SetTotal := 3 }

/-- A world with no cursor file, in which the API answers with the given pages,
one after the other, and every tweet is stored successfully. -/
def pagesWorld (pages : List (List Nat)) : World :=
  { lastIdFile := none, credentials := true,
    fetches := pages.map (fun ids => Fetch.parsed (pageOf ids)),
    lastIdCreate := true }

/-- A world whose cursor file holds `content`, in which the API gives the
answers `fetches` and the cursor file can be created at the end. -/
def cursorWorld (content : String) (fetches : List Fetch) : World :=
  { lastIdFile := some { buf := content.data, broken := false },
    credentials := true, fetches := fetches, lastIdCreate := true }

/-- A run of rate-limit rejections, one for each pair of reset time and
current time. -/
def rejections (waits : List (Int × Int)) : List Fetch :=
  waits.map (fun p => Fetch.rateLimited p.1 p.2)

/-- A world with no cursor file, in which the API gives the answers `fetches`
and the cursor file can be created at the end. -/
def freshWorld (fetches : List Fetch) : World :=
  { lastIdFile := none, credentials := true, fetches := fetches, lastIdCreate := true }

/-- The query of the default arguments when no cursor is loaded. -/
def defaultQuery : Values := [("count", "100"), ("screen_name", "twitterapi")]

/-- The default arguments with the since override `50`. -/
def sinceArgs : Args := { defaultArgs with SinceID := "50" }

/-- What it is for a string to parse as an unsigned 64-bit decimal identifier,
as `strconv.ParseUint(s, 10, 64)` does it: a non-empty sequence of the digits
`0` to `9` whose value is below `2^64`. -/
def parseUint64 (s : List Char) : Option Nat :=
  if s = [] then none
  else s.foldl (fun acc c =>
      match acc with
      | none => none
      | some n =>
        if '0' ≤ c ∧ c ≤ '9' then
          let m := n * 10 + (c.toNat - '0'.toNat)
          if m < 2 ^ 64 then some m else none
        else none) (some 0)

/-- The tweets a fetch leaves in `results`. -/
def Fetch.results : Fetch → List Tweet
  | .parseFailed results => results
  | .parsed results => results
  | _ => []

/-- The requests of a run, each with the answer it got. -/
def exchanges (w : World) (r : Run) : List (Values × Fetch) :=
  List.zip (requests r.events) w.fetches

/-- A reference model of the timeline API for a timeline given newest first:
the tweets with an id strictly greater than `since_id` and at most `max_id`,
newest first, at most `count` of them. -/
def apiPage (timeline : List Nat) (q : Values) : List Nat :=
  let since := (q.lookup "since_id").bind (fun s => parseUint64 s.data)
  let maxId := (q.lookup "max_id").bind (fun s => parseUint64 s.data)
  let count := ((q.lookup "count").bind (fun s => parseUint64 s.data)).getD 20
  (timeline.filter (fun i =>
    (match since with | some s => decide (s < i) | none => true)
    && (match maxId with | some m => decide (i ≤ m) | none => true))).take count

/-- The timeline of the scenario of the specification. -/
def sampleTimeline : List Nat := [109, 108, 107, 106, 105]

/-- The answers of the reference API to a list of requests, every tweet being
stored successfully. -/
def apiAnswers (timeline : List Nat) (reqs : List Values) : List Fetch :=
  reqs.map (fun q => Fetch.parsed (pageOf (apiPage timeline q)))

/-- The ids of the tweets a run fetched. -/
def fetchedIds (w : World) (r : Run) : List Nat :=
  (exchanges w r).flatMap (fun p => p.2.results.map Tweet.Id)

/-- The prior run of the resumption scenario: cap three, no cursor file, the
whole sample timeline returned as one page. -/
def priorWorld : World := pagesWorld [sampleTimeline]

/-- The following run of the resumption scenario: it finds the cursor file the
prior run wrote, and the API answers its two requests for the sample timeline. -/
def followingWorld : World :=
  cursorWorld "107\n" [Fetch.parsed (pageOf [109, 108]), Fetch.parsed (pageOf [])]

/-- A following run after two newer tweets were posted. -/
def newerWorld : World :=
  cursorWorld "107\n" [Fetch.parsed (pageOf [111, 110, 109, 108]), Fetch.parsed (pageOf [])]

/-! ## Lemmas on url.Values and the head of the loop body -/

theorem Values.lookup_Set_same (q : Values) (k v : String) :
    (q.Set k v).lookup k = some v := by
  induction q with
  | nil => simp [Values.Set, Values.lookup]
  | cons kv rest ih =>
    obtain ⟨k1, v1⟩ := kv
    by_cases h : k1 = k
    · simp [Values.Set, Values.lookup, h]
    · simp [Values.Set, Values.lookup, h, ih]

theorem Values.lookup_Set_other (q : Values) (k v k2 : String) (h : k ≠ k2) :
    (q.Set k v).lookup k2 = q.lookup k2 := by
  induction q with
  | nil => simp [Values.Set, Values.lookup, h]
  | cons kv rest ih =>
    obtain ⟨k1, v1⟩ := kv
    by_cases h1 : k1 = k
    · subst h1
      simp [Values.Set, Values.lookup, h]
    · by_cases h2 : k1 = k2
      · subst h2
        simp [Values.Set, Values.lookup, h1]
      · simp [Values.Set, Values.lookup, h1, h2, ih]

theorem Values.Set_Set (q : Values) (k v : String) :
    (q.Set k v).Set k v = q.Set k v := by
  induction q with
  | nil => simp [Values.Set]
  | cons kv rest ih =>
    obtain ⟨k1, v1⟩ := kv
    by_cases h : k1 = k
    · simp [Values.Set, h]
    · simp [Values.Set, h, ih]

@[simp] theorem setMaxId_total (st : LoopState) : (setMaxId st).total = st.total := by
  unfold setMaxId; split <;> rfl

@[simp] theorem setMaxId_tweet_id (st : LoopState) :
    (setMaxId st).tweet_id = st.tweet_id := by
  unfold setMaxId; split <;> rfl

@[simp] theorem setMaxId_max_id (st : LoopState) : (setMaxId st).max_id = st.max_id := by
  unfold setMaxId; split <;> rfl

theorem setMaxId_idem (st : LoopState) : setMaxId (setMaxId st) = setMaxId st := by
  by_cases h : st.max_id = 0
  · simp [setMaxId, h]
  · simp [setMaxId, h, Values.Set_Set]

theorem setMaxId_lookup_other (st : LoopState) (k : String) (h : "max_id" ≠ k) :
    (setMaxId st).query.lookup k = st.query.lookup k := by
  by_cases h0 : st.max_id = 0
  · simp [setMaxId, h0]
  · simp [setMaxId, h0, Values.lookup_Set_other _ _ _ _ h]

/-! ## The rate-limit wait (C6) -/

theorem wrapInt64_of_fits (x : Int) (h1 : minDuration ≤ x) (h2 : x ≤ maxDuration) :
    wrapInt64 x = x := by
  unfold minDuration at h1
  unfold maxDuration at h2
  unfold wrapInt64
  have hp : ((2 : Int) ^ 64) = 2 ^ 63 + 2 ^ 63 := by norm_num
  rw [Int.emod_eq_of_lt (by linarith) (by rw [hp]; linarith)]
  ring

theorem timeSub_of_fits (t u : Int) (h1 : minDuration ≤ t - u) (h2 : t - u ≤ maxDuration) :
    timeSub t u = t - u := by
  unfold timeSub
  rw [if_neg (not_lt.mpr h1), if_neg (not_lt.mpr h2)]

/-- The wait is never below `minwait`, whatever the reset time. -/
theorem minwait_le_rateLimitWait (reset now : Int) : minwait ≤ rateLimitWait reset now := by
  unfold rateLimitWait
  by_cases h : wrapInt64 (timeSub reset now + second) < minwait
  · simp only [h, if_true]; exact le_refl _
  · simp only [h, if_false]; exact not_lt.mp h

/-- As long as `reset - now` and `reset - now + 1 second` fit in a
`time.Duration`, the wait is `max (reset - now + 1 second) minwait`, at least
`minwait` and at least `reset - now`, and it is the duration the loop sleeps. -/
theorem rateLimitWait_of_fits (args : Args) (st : LoopState) (rest : List Fetch)
    (reset now : Int)
    (h1 : minDuration ≤ reset - now) (h2 : reset - now + second ≤ maxDuration) :
    rateLimitWait reset now = max (reset - now + second) minwait
    ∧ minwait ≤ rateLimitWait reset now
    ∧ reset - now ≤ rateLimitWait reset now
    ∧ sleeps (batchLoop args st (Fetch.rateLimited reset now :: rest)).2
        = max (reset - now + second) minwait
            :: sleeps (batchLoop args (setMaxId st) rest).2 := by
  have hs : second = 1000000000 := rfl
  have hsub : timeSub reset now = reset - now :=
    timeSub_of_fits reset now h1 (by rw [hs] at h2; linarith)
  have hwrap : wrapInt64 (reset - now + second) = reset - now + second :=
    wrapInt64_of_fits _ (by rw [hs]; linarith) h2
  have hw : rateLimitWait reset now = max (reset - now + second) minwait := by
    unfold rateLimitWait
    rw [hsub, hwrap]
    by_cases h : reset - now + second < minwait
    · simp only [h, if_true]; exact (max_eq_right (le_of_lt h)).symm
    · simp only [h, if_false]; exact (max_eq_left (not_lt.mp h)).symm
  refine ⟨hw, minwait_le_rateLimitWait reset now, ?_, ?_⟩
  · rw [hw]
    have : reset - now ≤ reset - now + second := by rw [hs]; linarith
    exact le_trans this (le_max_left _ _)
  · simp only [batchLoop, sleeps, hw]

/-- The wait on a reset time five seconds ahead is ten seconds. -/
theorem rateLimitWait_of_fits_example :
    minDuration ≤ 5 * second - 0 ∧ 5 * second - 0 + second ≤ maxDuration
    ∧ rateLimitWait (5 * second) 0 = max (5 * second - 0 + second) minwait :=
  ⟨by decide, by decide,
    (rateLimitWait_of_fits defaultArgs (initState defaultArgs "") [] (5 * second) 0
      (by decide) (by decide)).1⟩

/-- C6 does not hold of the code for a reset time 9223372036 seconds ahead:
`reset - now` fits in a `time.Duration`, but adding one second wraps around to
a negative `int64`, so the wait is `minwait`, ten seconds, which is neither
`max (reset - now + 1 second) minwait` nor at least `reset - now`.  The same
happens when `reset - now` itself does not fit and `Sub` saturates. -/
theorem rateLimitWait_wraps :
    timeSub (9223372036 * second) 0 = 9223372036 * second
    ∧ wrapInt64 (timeSub (9223372036 * second) 0 + second) = -9223372036709551616
    ∧ rateLimitWait (9223372036 * second) 0 = minwait
    ∧ minwait = 10 * 1000000000
    ∧ rateLimitWait (9223372036 * second) 0
        ≠ max (9223372036 * second - 0 + second) minwait
    ∧ ¬ (9223372036 * second - 0 ≤ rateLimitWait (9223372036 * second) 0)
    ∧ sleeps (batchLoop defaultArgs (initState defaultArgs "")
        [Fetch.rateLimited (9223372036 * second) 0]).2 = [10000000000]
    ∧ timeSub (10000000000 * second) 0 = maxDuration
    ∧ rateLimitWait (10000000000 * second) 0 = minwait := by
  decide

/-! ## Frame of a rate-limit rejection and of a Sink failure (C7) -/

/-- C7: a rate-limit rejection leaves `total`, `tweet_id`, `max_id` and the
query of the rejected request as they are: the loop goes on from that state,
and the request of the retry is the rejected request.  A failure to create the
output file of a tweet leaves the whole state as it is and the loop goes on
with the next tweet of the page. -/
theorem rateLimit_sinkFailure_frame (args : Args) (st : LoopState)
    (reset now : Int) (rest : List Fetch) (id : Nat) (page : List Tweet) :
    batchLoop args st (Fetch.rateLimited reset now :: rest)
        = ((batchLoop args (setMaxId st) rest).1,
            Event.request (nextRequest st) :: Event.sleep (rateLimitWait reset now)
              :: (batchLoop args (setMaxId st) rest).2)
    ∧ (setMaxId st).total = st.total
    ∧ (setMaxId st).tweet_id = st.tweet_id
    ∧ (setMaxId st).max_id = st.max_id
    ∧ (setMaxId st).query = nextRequest st
    ∧ nextRequest (setMaxId st) = nextRequest st
    ∧ processPage args st ({ rawId := id, sink := SinkResult.createFailed } :: page)
        = processPage args st page := by
  refine ⟨by simp [batchLoop, nextRequest], by simp, by simp, by simp, rfl, ?_, ?_⟩
  · simp [nextRequest, setMaxId_idem]
  · simp [processPage]

/-! ## Unfolding the loop -/

theorem totals_append (a b : List Event) : totals (a ++ b) = totals a ++ totals b := by
  induction a with
  | nil => rfl
  | cons e rest ih => cases e <;> simp [totals, ih]

theorem writtenIds_append (a b : List Event) :
    writtenIds (a ++ b) = writtenIds a ++ writtenIds b := by
  induction a with
  | nil => rfl
  | cons e rest ih => cases e <;> simp [writtenIds, ih]

theorem requests_append (a b : List Event) :
    requests (a ++ b) = requests a ++ requests b := by
  induction a with
  | nil => rfl
  | cons e rest ih => cases e <;> simp [requests, ih]

theorem Tweet.Id_lt (t : Tweet) : t.Id < 2 ^ 64 := Nat.mod_lt _ (by decide)

theorem subOne64_eq_mod (x : Nat) (h : x < 2 ^ 64) :
    subOne64 x = (x + (2 ^ 64 - 1)) % 2 ^ 64 := by
  unfold subOne64
  split <;> omega

@[simp] theorem stored_total (st : LoopState) (tweet : Tweet) :
    (st.stored tweet).total = st.total + 1 := rfl

@[simp] theorem stored_tweet_id (st : LoopState) (tweet : Tweet) :
    (st.stored tweet).tweet_id = tweet.Id := rfl

@[simp] theorem stored_max_id (st : LoopState) (tweet : Tweet) :
    (st.stored tweet).max_id = subOne64 tweet.Id := rfl

@[simp] theorem stored_query (st : LoopState) (tweet : Tweet) :
    (st.stored tweet).query = st.query := rfl

theorem processPage_nil (args : Args) (st : LoopState) :
    processPage args st [] = (PageEnd.next st, []) := rfl

theorem processPage_marshalFailed (args : Args) (st : LoopState) (tweet : Tweet)
    (rest : List Tweet) (hs : tweet.sink = SinkResult.marshalFailed) :
    processPage args st (tweet :: rest) = (PageEnd.exit st, []) := by
  rw [processPage]; simp only [hs]

theorem processPage_createFailed (args : Args) (st : LoopState) (tweet : Tweet)
    (rest : List Tweet) (hs : tweet.sink = SinkResult.createFailed) :
    processPage args st (tweet :: rest) = processPage args st rest := by
  rw [processPage]; simp only [hs]

theorem processPage_written_break (args : Args) (st : LoopState) (tweet : Tweet)
    (rest : List Tweet) (hs : tweet.sink = SinkResult.written)
    (hc : st.total + 1 ≥ args.SetTotal) :
    processPage args st (tweet :: rest)
      = (PageEnd.breakLoop (st.stored tweet), [Event.wrote tweet.Id (st.total + 1)]) := by
  rw [processPage]; simp only [hs, stored_total, hc, if_true]

theorem processPage_written_next (args : Args) (st : LoopState) (tweet : Tweet)
    (rest : List Tweet) (hs : tweet.sink = SinkResult.written)
    (hc : ¬ st.total + 1 ≥ args.SetTotal) :
    processPage args st (tweet :: rest)
      = ((processPage args (st.stored tweet) rest).1,
          Event.wrote tweet.Id (st.total + 1) :: (processPage args (st.stored tweet) rest).2) := by
  rw [processPage]; simp only [hs, stored_total, hc, if_false]

theorem batchLoop_parseFailed (args : Args) (st : LoopState) (results : List Tweet)
    (rest : List Fetch) :
    batchLoop args st (Fetch.parseFailed results :: rest)
      = batchLoop args st (Fetch.parsed results :: rest) := rfl

theorem batchLoop_parsed_nil (args : Args) (st : LoopState) (rest : List Fetch) :
    batchLoop args st (Fetch.parsed [] :: rest)
      = (LoopEnd.done (setMaxId st), [Event.request (nextRequest st)]) := rfl

theorem batchLoop_parsed_next (args : Args) (st st2 : LoopState) (t : Tweet)
    (page : List Tweet) (ev : List Event) (rest : List Fetch)
    (h : processPage args (setMaxId st) (t :: page) = (PageEnd.next st2, ev)) :
    batchLoop args st (Fetch.parsed (t :: page) :: rest)
      = ((batchLoop args st2 rest).1,
          Event.request (nextRequest st) :: (ev ++ (batchLoop args st2 rest).2)) := by
  simp [batchLoop, h, nextRequest]

theorem batchLoop_parsed_break (args : Args) (st st2 : LoopState) (t : Tweet)
    (page : List Tweet) (ev : List Event) (rest : List Fetch)
    (h : processPage args (setMaxId st) (t :: page) = (PageEnd.breakLoop st2, ev)) :
    batchLoop args st (Fetch.parsed (t :: page) :: rest)
      = (LoopEnd.done st2, Event.request (nextRequest st) :: ev) := by
  simp [batchLoop, h, nextRequest]

theorem batchLoop_parsed_exit (args : Args) (st st2 : LoopState) (t : Tweet)
    (page : List Tweet) (ev : List Event) (rest : List Fetch)
    (h : processPage args (setMaxId st) (t :: page) = (PageEnd.exit st2, ev)) :
    batchLoop args st (Fetch.parsed (t :: page) :: rest)
      = (LoopEnd.exit st2, Event.request (nextRequest st) :: ev) := by
  simp [batchLoop, h, nextRequest]

/-! ## The counter `total` (C1) -/

theorem processPage_total (args : Args) (M : Int) (hM : args.SetTotal ≤ M)
    (page : List Tweet) :
    ∀ st : LoopState, st.total < M →
      (∀ t ∈ totals (processPage args st page).2, t ≤ M)
      ∧ (processPage args st page).1.state.total ≤ M
      ∧ (∀ st2, (processPage args st page).1 = PageEnd.next st2 → st2.total < M) := by
  induction page with
  | nil =>
    intro st h
    rw [processPage_nil]
    simp [totals, PageEnd.state, le_of_lt h, h]
  | cons tweet rest ih =>
    intro st h
    cases hs : tweet.sink with
    | marshalFailed =>
      rw [processPage_marshalFailed args st tweet rest hs]
      simp [totals, PageEnd.state, le_of_lt h]
    | createFailed =>
      rw [processPage_createFailed args st tweet rest hs]
      exact ih st h
    | written =>
      by_cases hc : st.total + 1 ≥ args.SetTotal
      · have hle : st.total + 1 ≤ M := by omega
        rw [processPage_written_break args st tweet rest hs hc]
        simp [totals, PageEnd.state, hle]
      · have hlt : (st.stored tweet).total < M := by rw [stored_total]; omega
        have h3 := ih (st.stored tweet) hlt
        rw [processPage_written_next args st tweet rest hs hc]
        refine ⟨?_, h3.2.1, h3.2.2⟩
        intro t ht
        simp only [totals, List.mem_cons] at ht
        rcases ht with ht | ht
        · rw [ht]; rw [stored_total] at hlt; exact le_of_lt hlt
        · exact h3.1 t ht

theorem processPage_count (args : Args) (page : List Tweet) :
    ∀ st : LoopState,
      (processPage args st page).1.state.total
        = st.total + ((writtenIds (processPage args st page).2).length : Int) := by
  induction page with
  | nil => intro st; rw [processPage_nil]; simp [writtenIds, PageEnd.state]
  | cons tweet rest ih =>
    intro st
    cases hs : tweet.sink with
    | marshalFailed =>
      rw [processPage_marshalFailed args st tweet rest hs]
      simp [writtenIds, PageEnd.state]
    | createFailed =>
      rw [processPage_createFailed args st tweet rest hs]
      exact ih st
    | written =>
      by_cases hc : st.total + 1 ≥ args.SetTotal
      · rw [processPage_written_break args st tweet rest hs hc]
        simp [writtenIds, PageEnd.state]
      · have h3 := ih (st.stored tweet)
        rw [processPage_written_next args st tweet rest hs hc]
        simp only [writtenIds, List.length_cons, h3, stored_total]
        push_cast; ring

theorem batchLoop_total (args : Args) (M : Int) (hM : args.SetTotal ≤ M)
    (fetches : List Fetch) :
    ∀ st : LoopState, st.total < M →
      (∀ t ∈ totals (batchLoop args st fetches).2, t ≤ M)
      ∧ (batchLoop args st fetches).1.state.total ≤ M := by
  induction fetches with
  | nil => intro st h; simp [batchLoop, totals, LoopEnd.state, le_of_lt h]
  | cons f rest ih =>
    intro st h
    have h1 : (setMaxId st).total < M := by simpa using h
    have hpage : ∀ results : List Tweet,
        (∀ t ∈ totals (batchLoop args st (Fetch.parsed results :: rest)).2, t ≤ M)
        ∧ (batchLoop args st (Fetch.parsed results :: rest)).1.state.total ≤ M := by
      intro results
      cases results with
      | nil => simp [batchLoop_parsed_nil, totals, LoopEnd.state, le_of_lt h]
      | cons t page =>
        have hp := processPage_total args M hM (t :: page) (setMaxId st) h1
        rcases hpe : processPage args (setMaxId st) (t :: page) with ⟨e, ev⟩
        rw [hpe] at hp
        cases e with
        | next st2 =>
          have h2 := ih st2 (hp.2.2 st2 rfl)
          rw [batchLoop_parsed_next args st st2 t page ev rest hpe]
          refine ⟨?_, h2.2⟩
          intro x hx
          simp only [totals, totals_append, List.mem_append] at hx
          rcases hx with hx | hx
          · exact hp.1 x hx
          · exact h2.1 x hx
        | breakLoop st2 =>
          rw [batchLoop_parsed_break args st st2 t page ev rest hpe]
          exact ⟨by simpa [totals] using hp.1, hp.2.1⟩
        | exit st2 =>
          rw [batchLoop_parsed_exit args st st2 t page ev rest hpe]
          exact ⟨by simpa [totals] using hp.1, hp.2.1⟩
    cases f with
    | newRequestFailed => simp [batchLoop, totals, LoopEnd.state, le_of_lt h]
    | sendFailed => simp [batchLoop, totals, LoopEnd.state, le_of_lt h]
    | rateLimited reset now =>
      have h2 := ih (setMaxId st) h1
      simpa [batchLoop, totals] using h2
    | parseFailed results => rw [batchLoop_parseFailed]; exact hpage results
    | parsed results => exact hpage results

theorem batchLoop_count (args : Args) (fetches : List Fetch) :
    ∀ st : LoopState,
      (batchLoop args st fetches).1.state.total
        = st.total + ((writtenIds (batchLoop args st fetches).2).length : Int) := by
  induction fetches with
  | nil => intro st; simp [batchLoop, writtenIds, LoopEnd.state]
  | cons f rest ih =>
    intro st
    have hpage : ∀ results : List Tweet,
        (batchLoop args st (Fetch.parsed results :: rest)).1.state.total
          = st.total
            + ((writtenIds (batchLoop args st (Fetch.parsed results :: rest)).2).length
                : Int) := by
      intro results
      cases results with
      | nil => simp [batchLoop_parsed_nil, writtenIds, LoopEnd.state]
      | cons t page =>
        have hp := processPage_count args (t :: page) (setMaxId st)
        rcases hpe : processPage args (setMaxId st) (t :: page) with ⟨e, ev⟩
        rw [hpe] at hp
        cases e with
        | next st2 =>
          rw [batchLoop_parsed_next args st st2 t page ev rest hpe]
          have h2 := ih st2
          simp only [PageEnd.state, setMaxId_total] at hp
          simp only [writtenIds, writtenIds_append, List.length_append, h2, hp]
          push_cast; ring
        | breakLoop st2 =>
          rw [batchLoop_parsed_break args st st2 t page ev rest hpe]
          simpa [writtenIds, PageEnd.state, LoopEnd.state] using hp
        | exit st2 =>
          rw [batchLoop_parsed_exit args st st2 t page ev rest hpe]
          simpa [writtenIds, PageEnd.state, LoopEnd.state] using hp
    cases f with
    | newRequestFailed => simp [batchLoop, writtenIds, LoopEnd.state]
    | sendFailed => simp [batchLoop, writtenIds, LoopEnd.state]
    | rateLimited reset now => simpa [batchLoop, writtenIds] using ih (setMaxId st)
    | parseFailed results => rw [batchLoop_parseFailed]; exact hpage results
    | parsed results => exact hpage results

theorem main_no_credentials (args : Args) (w : World) (h : w.credentials = false) :
    main args w = { loopEnd := none, events := [], lastIdWrite := none } := by
  simp [main, h]

theorem main_events (args : Args) (w : World) (h : w.credentials = true) :
    (main args w).events
      = (batchLoop args (initState args (loadLastID w.lastIdFile)) w.fetches).2
    ∧ (main args w).loopEnd
      = some (batchLoop args (initState args (loadLastID w.lastIdFile)) w.fetches).1 := by
  unfold main
  simp only [h, if_true]
  split <;> simp_all

theorem main_loopEnd (args : Args) (w : World) (e : LoopEnd)
    (h : (main args w).loopEnd = some e) :
    w.credentials = true
    ∧ e = (batchLoop args (initState args (loadLastID w.lastIdFile)) w.fetches).1 := by
  by_cases hc : w.credentials = true
  · rw [(main_events args w hc).2] at h
    exact ⟨hc, by cases h; rfl⟩
  · have hf : w.credentials = false := by simpa using hc
    rw [main_no_credentials args w hf] at h
    cases h

/-- C1 (as amended): at every point of every run the counter `total`, which is
the number of item files written, is at most `max SetTotal 1`: at most the cap
for every cap of at least one, and at most one for a cap below one. -/
theorem total_le_cap (args : Args) (w : World) :
    (∀ t ∈ totals (main args w).events, t ≤ max args.SetTotal 1)
    ∧ (∀ e, (main args w).loopEnd = some e →
        e.state.total ≤ max args.SetTotal 1
        ∧ e.state.total = ((writtenIds (main args w).events).length : Int))
    ∧ ((writtenIds (main args w).events).length : Int) ≤ max args.SetTotal 1 := by
  have hinit : (initState args (loadLastID w.lastIdFile)).total = 0 := by
    simp [initState]
  have hlt : (initState args (loadLastID w.lastIdFile)).total < max args.SetTotal 1 := by
    rw [hinit]; exact lt_of_lt_of_le (by decide) (le_max_right _ _)
  have hb := batchLoop_total args (max args.SetTotal 1) (le_max_left _ _) w.fetches _ hlt
  have hc := batchLoop_count args w.fetches (initState args (loadLastID w.lastIdFile))
  rw [hinit, zero_add] at hc
  by_cases hcr : w.credentials = true
  · obtain ⟨hev, hend⟩ := main_events args w hcr
    rw [hev]
    refine ⟨hb.1, ?_, ?_⟩
    · intro e he
      rw [hend] at he
      cases he
      exact ⟨hb.2, hc⟩
    · rw [← hc]; exact hb.2
  · have hf : w.credentials = false := by simpa using hcr
    rw [main_no_credentials args w hf]
    simp [totals, writtenIds]

/-- C1 (as amended) on the scenario of the specification: under a cap of
three the counter takes the values 1, 2, 3 and three items are written. -/
theorem total_le_cap_witness :
    totals (main capThreeArgs (pagesWorld [[109, 108, 107, 106, 105]])).events = [1, 2, 3]
    ∧ ((writtenIds (main capThreeArgs (pagesWorld [[109, 108, 107, 106, 105]])).events).length
        : Int) ≤ max capThreeArgs.SetTotal 1 :=
  ⟨by decide, (total_le_cap capThreeArgs (pagesWorld [[109, 108, 107, 106, 105]])).2.2⟩

/-- C1 fails as stated: with a cap of zero the first item of the first page is
written and `total` becomes one. -/
theorem total_exceeds_cap_zero :
    capZeroArgs.SetTotal = 0
    ∧ totals (main capZeroArgs (pagesWorld [[109]])).events = [1]
    ∧ writtenIds (main capZeroArgs (pagesWorld [[109]])).events = [109]
    ∧ ¬ (∀ t ∈ totals (main capZeroArgs (pagesWorld [[109]])).events,
          t ≤ capZeroArgs.SetTotal) := by
  decide

/-! ## The variable `tweet_id` and the save of the cursor (C2, C4, C5) -/

theorem processPage_tweet_id (args : Args) (page : List Tweet) :
    ∀ st : LoopState,
      (processPage args st page).1.state.tweet_id
        = (writtenIds (processPage args st page).2).getLast?.getD st.tweet_id := by
  induction page with
  | nil => intro st; rw [processPage_nil]; simp [writtenIds, PageEnd.state]
  | cons tweet rest ih =>
    intro st
    cases hs : tweet.sink with
    | marshalFailed =>
      rw [processPage_marshalFailed args st tweet rest hs]
      simp [writtenIds, PageEnd.state]
    | createFailed =>
      rw [processPage_createFailed args st tweet rest hs]
      exact ih st
    | written =>
      by_cases hc : st.total + 1 ≥ args.SetTotal
      · rw [processPage_written_break args st tweet rest hs hc]
        simp [writtenIds, PageEnd.state]
      · have h3 := ih (st.stored tweet)
        rw [processPage_written_next args st tweet rest hs hc]
        simp only [writtenIds, h3, stored_tweet_id]
        cases hw : writtenIds (processPage args (st.stored tweet) rest).2 with
        | nil => simp
        | cons a l => simp [List.getLast?_eq_getLast _ (List.cons_ne_nil a l)]

theorem getLast?_append_getD (a b : List Nat) (d : Nat) :
    (a ++ b).getLast?.getD d = b.getLast?.getD (a.getLast?.getD d) := by
  cases b with
  | nil => simp
  | cons x l =>
    rw [List.getLast?_append_of_ne_nil a (List.cons_ne_nil x l)]
    simp [List.getLast?_eq_getLast _ (List.cons_ne_nil x l)]

theorem batchLoop_tweet_id (args : Args) (fetches : List Fetch) :
    ∀ st : LoopState,
      (batchLoop args st fetches).1.state.tweet_id
        = (writtenIds (batchLoop args st fetches).2).getLast?.getD st.tweet_id := by
  induction fetches with
  | nil => intro st; simp [batchLoop, writtenIds, LoopEnd.state]
  | cons f rest ih =>
    intro st
    have hpage : ∀ results : List Tweet,
        (batchLoop args st (Fetch.parsed results :: rest)).1.state.tweet_id
          = (writtenIds (batchLoop args st (Fetch.parsed results :: rest)).2).getLast?.getD
              st.tweet_id := by
      intro results
      cases results with
      | nil => simp [batchLoop_parsed_nil, writtenIds, LoopEnd.state]
      | cons t page =>
        have hp := processPage_tweet_id args (t :: page) (setMaxId st)
        rcases hpe : processPage args (setMaxId st) (t :: page) with ⟨e, ev⟩
        rw [hpe] at hp
        simp only [setMaxId_tweet_id] at hp
        cases e with
        | next st2 =>
          rw [batchLoop_parsed_next args st st2 t page ev rest hpe]
          simp only [PageEnd.state] at hp
          simp only [writtenIds, writtenIds_append, getLast?_append_getD, ih st2, hp]
        | breakLoop st2 =>
          rw [batchLoop_parsed_break args st st2 t page ev rest hpe]
          simpa [writtenIds, PageEnd.state, LoopEnd.state] using hp
        | exit st2 =>
          rw [batchLoop_parsed_exit args st st2 t page ev rest hpe]
          simpa [writtenIds, PageEnd.state, LoopEnd.state] using hp
    cases f with
    | newRequestFailed => simp [batchLoop, writtenIds, LoopEnd.state]
    | sendFailed => simp [batchLoop, writtenIds, LoopEnd.state]
    | rateLimited reset now => simpa [batchLoop, writtenIds] using ih (setMaxId st)
    | parseFailed results => rw [batchLoop_parseFailed]; exact hpage results
    | parsed results => exact hpage results

theorem main_lastIdWrite_done (args : Args) (w : World) (st : LoopState)
    (h : (main args w).loopEnd = some (LoopEnd.done st)) :
    (main args w).lastIdWrite = saveLastID w.lastIdCreate st.tweet_id := by
  obtain ⟨hc, he⟩ := main_loopEnd args w _ h
  unfold main
  simp only [hc, if_true, ← he]

theorem main_lastIdWrite_not_done (args : Args) (w : World)
    (h : ∀ st, (main args w).loopEnd ≠ some (LoopEnd.done st)) :
    (main args w).lastIdWrite = none := by
  by_cases hc : w.credentials = true
  · have he := (main_events args w hc).2
    unfold main
    simp only [hc, if_true]
    split
    · rename_i st hd
      exact absurd (he.trans (congrArg some hd)) (h st)
    · rfl
  · have hf : w.credentials = false := by simpa using hc
    rw [main_no_credentials args w hf]

theorem main_tweet_id (args : Args) (w : World) (e : LoopEnd)
    (h : (main args w).loopEnd = some e) :
    e.state.tweet_id = (writtenIds (main args w).events).getLast?.getD 0 := by
  obtain ⟨hc, he⟩ := main_loopEnd args w _ h
  rw [(main_events args w hc).1, he, batchLoop_tweet_id]
  simp [initState]

/-- C2: when the run leaves the paging loop by a break (empty page or cap
reached) and at least one item was written, with `i` the id of the last one,
the string written to the cursor file is the decimal representation of `i`
followed by a newline: it is written whenever the file can be created, and
nothing else is ever written to it. -/
theorem lastId_is_last_written (args : Args) (w : World) (st : LoopState) (i : Nat)
    (hend : (main args w).loopEnd = some (LoopEnd.done st))
    (hlast : (writtenIds (main args w).events).getLast? = some i) :
    st.tweet_id = i
    ∧ (w.lastIdCreate = true → (main args w).lastIdWrite = some (Nat.repr i ++ "\n"))
    ∧ (∀ content, (main args w).lastIdWrite = some content → content = Nat.repr i ++ "\n") := by
  have ht : st.tweet_id = i := by
    have := main_tweet_id args w _ hend
    simpa [LoopEnd.state, hlast] using this
  have hw := main_lastIdWrite_done args w st hend
  rw [ht] at hw
  refine ⟨ht, ?_, ?_⟩
  · intro hc
    rw [hw, saveLastID, if_pos hc]; rfl
  · intro content hcont
    rw [hw, saveLastID] at hcont
    split at hcont
    · cases hcont; rfl
    · cases hcont

/-- C2 on the scenario of the specification: cap 3 and one page
`[109,108,107,106,105]` write the items 109, 108, 107 and persist `107`. -/
theorem lastId_is_last_written_witness :
    writtenIds (main capThreeArgs (pagesWorld [[109, 108, 107, 106, 105]])).events
      = [109, 108, 107]
    ∧ requests (main capThreeArgs (pagesWorld [[109, 108, 107, 106, 105]])).events
      = [[("count", "100"), ("screen_name", "twitterapi")]]
    ∧ (main capThreeArgs (pagesWorld [[109, 108, 107, 106, 105]])).lastIdWrite
      = some "107\n" :=
  ⟨by decide, by decide,
    (lastId_is_last_written capThreeArgs (pagesWorld [[109, 108, 107, 106, 105]])
      { max_id := 106, tweet_id := 107, total := 3,
        query := [("count", "100"), ("screen_name", "twitterapi")] } 107
      (by decide) (by decide)).2.1 (by decide)⟩

/-! ### An empty first page (C4) -/

theorem batchLoop_rateLimited (args : Args) (st : LoopState) (reset now : Int)
    (rest : List Fetch) :
    batchLoop args st (Fetch.rateLimited reset now :: rest)
      = ((batchLoop args (setMaxId st) rest).1,
          Event.request (nextRequest st) :: Event.sleep (rateLimitWait reset now)
            :: (batchLoop args (setMaxId st) rest).2) := rfl

theorem batchLoop_rejections_empty (args : Args) (rest : List Fetch)
    (waits : List (Int × Int)) :
    ∀ st : LoopState,
      (batchLoop args st (rejections waits ++ Fetch.parsed [] :: rest)).1
        = LoopEnd.done (setMaxId st)
      ∧ writtenIds (batchLoop args st (rejections waits ++ Fetch.parsed [] :: rest)).2
        = [] := by
  induction waits with
  | nil => intro st; simp [rejections, batchLoop_parsed_nil, writtenIds]
  | cons p tail ih =>
    intro st
    have hcons : rejections (p :: tail) ++ Fetch.parsed [] :: rest
        = Fetch.rateLimited p.1 p.2 :: (rejections tail ++ Fetch.parsed [] :: rest) := rfl
    have h2 := ih (setMaxId st)
    rw [setMaxId_idem] at h2
    rw [hcons, batchLoop_rateLimited]
    exact ⟨h2.1, by simpa [writtenIds] using h2.2⟩

/-- C4 (as amended): when the first page the API returns (after any number of
rate-limit rejections) is empty, the run writes no item file, leaves the loop,
and writes `0` and a newline to the cursor file if it can create it: the
cursor file then holds `0`, whatever it held before; it keeps its content only
when it cannot be created. -/
theorem empty_first_page_resets_cursor (args : Args) (w : World)
    (waits : List (Int × Int)) (rest : List Fetch)
    (hcred : w.credentials = true)
    (hfetch : w.fetches = rejections waits ++ Fetch.parsed [] :: rest) :
    writtenIds (main args w).events = []
    ∧ (∃ st, (main args w).loopEnd = some (LoopEnd.done st))
    ∧ (main args w).lastIdWrite = (if w.lastIdCreate then some "0\n" else none)
    ∧ (∀ before, lastIdFileAfter before (main args w)
          = if w.lastIdCreate then some "0\n" else before) := by
  obtain ⟨hev, hend⟩ := main_events args w hcred
  have hb := batchLoop_rejections_empty args rest waits
    (initState args (loadLastID w.lastIdFile))
  rw [← hfetch] at hb
  have hdone : (main args w).loopEnd
      = some (LoopEnd.done (setMaxId (initState args (loadLastID w.lastIdFile)))) := by
    rw [hend, hb.1]
  have hw := main_lastIdWrite_done args w _ hdone
  have hid : (setMaxId (initState args (loadLastID w.lastIdFile))).tweet_id = 0 := by
    simp [initState]
  rw [hid] at hw
  have hw2 : (main args w).lastIdWrite = (if w.lastIdCreate then some "0\n" else none) := by
    rw [hw, saveLastID]; rfl
  refine ⟨by rw [hev]; exact hb.2, ⟨_, hdone⟩, hw2, ?_⟩
  intro before
  rw [lastIdFileAfter, hw2]
  cases w.lastIdCreate <;> rfl

/-- C4 (as amended) on a run that finds the cursor `107`, is rejected once and
then gets an empty page. -/
theorem empty_first_page_resets_cursor_witness :
    (cursorWorld "107\n" [Fetch.rateLimited 5 0, Fetch.parsed []]).credentials = true
    ∧ (cursorWorld "107\n" [Fetch.rateLimited 5 0, Fetch.parsed []]).fetches
        = rejections [(5, 0)] ++ Fetch.parsed [] :: []
    ∧ lastIdFileAfter (some "107\n")
        (main defaultArgs (cursorWorld "107\n" [Fetch.rateLimited 5 0, Fetch.parsed []]))
        = some "0\n" :=
  ⟨rfl, rfl,
    (empty_first_page_resets_cursor defaultArgs
      (cursorWorld "107\n" [Fetch.rateLimited 5 0, Fetch.parsed []]) [(5, 0)] [] rfl rfl).2.2.2
      (some "107\n")⟩

/-- C4 fails as stated: a cursor file holding `107` holds `0` after a run whose
first page is empty. -/
theorem empty_first_page_overwrites_cursor :
    loadLastID (cursorWorld "107\n" [Fetch.parsed []]).lastIdFile = "107"
    ∧ writtenIds (main defaultArgs (cursorWorld "107\n" [Fetch.parsed []])).events = []
    ∧ lastIdFileAfter (some "107\n") (main defaultArgs (cursorWorld "107\n" [Fetch.parsed []]))
        = some "0\n"
    ∧ lastIdFileAfter (some "107\n") (main defaultArgs (cursorWorld "107\n" [Fetch.parsed []]))
        ≠ some "107\n" := by
  decide

/-! ### Failures of a fetch (C5) -/

theorem batchLoop_append (args : Args) (more : List Fetch) (front : List Fetch) :
    ∀ (st0 st : LoopState) (ev : List Event),
      batchLoop args st0 front = (LoopEnd.waiting st, ev) →
      batchLoop args st0 (front ++ more)
        = ((batchLoop args st more).1, ev ++ (batchLoop args st more).2) := by
  induction front with
  | nil =>
    intro st0 st ev h
    simp only [batchLoop, Prod.mk.injEq, LoopEnd.waiting.injEq] at h
    obtain ⟨h1, h2⟩ := h
    subst h1; subst h2
    simp
  | cons f rest ih =>
    intro st0 st ev h
    have hpage : ∀ results : List Tweet,
        batchLoop args st0 (Fetch.parsed results :: rest) = (LoopEnd.waiting st, ev) →
        batchLoop args st0 (Fetch.parsed results :: (rest ++ more))
          = ((batchLoop args st more).1, ev ++ (batchLoop args st more).2) := by
      intro results hr
      cases results with
      | nil => rw [batchLoop_parsed_nil] at hr; simp at hr
      | cons t page =>
        rcases hpe : processPage args (setMaxId st0) (t :: page) with ⟨e, pev⟩
        cases e with
        | next st2 =>
          rw [batchLoop_parsed_next args st0 st2 t page pev rest hpe] at hr
          rw [batchLoop_parsed_next args st0 st2 t page pev (rest ++ more) hpe]
          simp only [Prod.mk.injEq] at hr
          obtain ⟨h1, h2⟩ := hr
          have h3 := ih st2 st (batchLoop args st2 rest).2 (Prod.ext h1 rfl)
          rw [h3, ← h2]
          simp
        | breakLoop st2 =>
          rw [batchLoop_parsed_break args st0 st2 t page pev rest hpe] at hr
          simp at hr
        | exit st2 =>
          rw [batchLoop_parsed_exit args st0 st2 t page pev rest hpe] at hr
          simp at hr
    cases f with
    | newRequestFailed => simp [batchLoop] at h
    | sendFailed => simp [batchLoop] at h
    | rateLimited reset now =>
      rw [batchLoop_rateLimited] at h
      simp only [Prod.mk.injEq] at h
      obtain ⟨h1, h2⟩ := h
      have h3 := ih (setMaxId st0) st (batchLoop args (setMaxId st0) rest).2 (Prod.ext h1 rfl)
      rw [List.cons_append, batchLoop_rateLimited, h3, ← h2]
      simp
    | parseFailed results =>
      rw [batchLoop_parseFailed] at h
      rw [List.cons_append, batchLoop_parseFailed]
      exact hpage results h
    | parsed results => exact hpage results h

/-- C5 (as amended): let the loop have reached state `st` after the answers
`front`.  If the next answer is an error of `SendRequest`, the process exits
at once and nothing is written to the cursor file.  If it is an error of
`Parse` that is not a rate limit and leaves no results, the loop is left and
the cursor save runs with `tweet_id`, the id of the last item written so far
(zero if there is none). -/
theorem fetch_failure_outcome (args : Args) (w : World) (front rest : List Fetch)
    (st : LoopState) (ev : List Event)
    (hcred : w.credentials = true)
    (hreach : batchLoop args (initState args (loadLastID w.lastIdFile)) front
      = (LoopEnd.waiting st, ev)) :
    (w.fetches = front ++ Fetch.sendFailed :: rest →
      (main args w).loopEnd = some (LoopEnd.exit (setMaxId st))
      ∧ (main args w).lastIdWrite = none)
    ∧ (w.fetches = front ++ Fetch.parseFailed [] :: rest →
      (main args w).loopEnd = some (LoopEnd.done (setMaxId st))
      ∧ st.tweet_id = (writtenIds ev).getLast?.getD 0
      ∧ writtenIds (main args w).events = writtenIds ev
      ∧ (main args w).lastIdWrite
          = (if w.lastIdCreate then some (Nat.repr st.tweet_id ++ "\n") else none)) := by
  obtain ⟨hev, hend⟩ := main_events args w hcred
  constructor
  · intro hf
    have hb := batchLoop_append args (Fetch.sendFailed :: rest) front _ st ev hreach
    rw [← hf] at hb
    have hexit : (main args w).loopEnd = some (LoopEnd.exit (setMaxId st)) := by
      rw [hend, hb]; rfl
    refine ⟨hexit, main_lastIdWrite_not_done args w ?_⟩
    intro st2 h2
    rw [hexit] at h2
    cases h2
  · intro hf
    have hb := batchLoop_append args (Fetch.parseFailed [] :: rest) front _ st ev hreach
    rw [← hf] at hb
    have hdone : (main args w).loopEnd = some (LoopEnd.done (setMaxId st)) := by
      rw [hend, hb]; rfl
    have hid := batchLoop_tweet_id args front (initState args (loadLastID w.lastIdFile))
    rw [hreach] at hid
    have hw := main_lastIdWrite_done args w _ hdone
    refine ⟨hdone, by simpa [LoopEnd.state, initState] using hid, ?_, ?_⟩
    · rw [hev, hb, batchLoop_parseFailed, batchLoop_parsed_nil]
      simp [writtenIds_append, writtenIds]
    · rw [hw, saveLastID, setMaxId_tweet_id]; rfl

/-- C5 (as amended) on a run that writes item 109 and then gets, as the
second answer, a send error or a parse error. -/
theorem fetch_failure_outcome_witness :
    batchLoop defaultArgs (initState defaultArgs "") [Fetch.parsed (pageOf [109])]
      = (LoopEnd.waiting { max_id := 108, tweet_id := 109, total := 1, query := defaultQuery },
          [Event.request defaultQuery, Event.wrote 109 1])
    ∧ (main defaultArgs (freshWorld [Fetch.parsed (pageOf [109]), Fetch.sendFailed])).lastIdWrite
        = none
    ∧ (main defaultArgs
          (freshWorld [Fetch.parsed (pageOf [109]), Fetch.parseFailed []])).lastIdWrite
        = some "109\n" :=
  ⟨by decide,
    ((fetch_failure_outcome defaultArgs
      (freshWorld [Fetch.parsed (pageOf [109]), Fetch.sendFailed])
      [Fetch.parsed (pageOf [109])] []
      { max_id := 108, tweet_id := 109, total := 1, query := defaultQuery }
      [Event.request defaultQuery, Event.wrote 109 1] rfl (by decide)).1 rfl).2,
    ((fetch_failure_outcome defaultArgs
      (freshWorld [Fetch.parsed (pageOf [109]), Fetch.parseFailed []])
      [Fetch.parsed (pageOf [109])] []
      { max_id := 108, tweet_id := 109, total := 1, query := defaultQuery }
      [Event.request defaultQuery, Event.wrote 109 1] rfl (by decide)).2 rfl).2.2.2⟩

/-- C5 fails as stated: after item 109 is written, an error of `SendRequest`
ends the process and the cursor file is not written. -/
theorem send_failure_skips_cursor_save :
    writtenIds (main defaultArgs
        (freshWorld [Fetch.parsed (pageOf [109]), Fetch.sendFailed])).events = [109]
    ∧ (main defaultArgs
        (freshWorld [Fetch.parsed (pageOf [109]), Fetch.sendFailed])).loopEnd
        = some (LoopEnd.exit
            { max_id := 108, tweet_id := 109, total := 1,
              query := [("count", "100"), ("screen_name", "twitterapi"), ("max_id", "108")] })
    ∧ (main defaultArgs
        (freshWorld [Fetch.parsed (pageOf [109]), Fetch.sendFailed])).lastIdWrite = none := by
  decide

/-! ## The parameter since_id (C8) -/

theorem processPage_query (args : Args) (page : List Tweet) :
    ∀ st : LoopState,
      (processPage args st page).1.state.query = st.query
      ∧ requests (processPage args st page).2 = [] := by
  induction page with
  | nil => intro st; rw [processPage_nil]; exact ⟨rfl, rfl⟩
  | cons tweet rest ih =>
    intro st
    cases hs : tweet.sink with
    | marshalFailed =>
      rw [processPage_marshalFailed args st tweet rest hs]; exact ⟨rfl, rfl⟩
    | createFailed =>
      rw [processPage_createFailed args st tweet rest hs]; exact ih st
    | written =>
      by_cases hc : st.total + 1 ≥ args.SetTotal
      · rw [processPage_written_break args st tweet rest hs hc]; exact ⟨rfl, rfl⟩
      · rw [processPage_written_next args st tweet rest hs hc]
        exact ih (st.stored tweet)

theorem batchLoop_requests_lookup (args : Args) (k : String) (hk : "max_id" ≠ k)
    (fetches : List Fetch) :
    ∀ st : LoopState, ∀ q ∈ requests (batchLoop args st fetches).2,
      q.lookup k = st.query.lookup k := by
  induction fetches with
  | nil => intro st q hq; simp [batchLoop, requests] at hq
  | cons f rest ih =>
    intro st q hq
    have h0 : (nextRequest st).lookup k = st.query.lookup k :=
      setMaxId_lookup_other st k hk
    have hpage : ∀ results : List Tweet,
        q ∈ requests (batchLoop args st (Fetch.parsed results :: rest)).2 →
        q.lookup k = st.query.lookup k := by
      intro results hr
      cases results with
      | nil =>
        rw [batchLoop_parsed_nil] at hr
        simp only [requests, List.mem_singleton] at hr
        rw [hr, h0]
      | cons t page =>
        have hp := processPage_query args (t :: page) (setMaxId st)
        rcases hpe : processPage args (setMaxId st) (t :: page) with ⟨e, ev⟩
        rw [hpe] at hp
        obtain ⟨hp1, hp2⟩ := hp
        cases e with
        | next st2 =>
          rw [batchLoop_parsed_next args st st2 t page ev rest hpe] at hr
          simp only [requests, requests_append, hp2, List.nil_append, List.mem_cons] at hr
          rcases hr with hr | hr
          · rw [hr, h0]
          · rw [ih st2 q hr]
            simp only [PageEnd.state] at hp1
            rw [hp1]; exact h0
        | breakLoop st2 =>
          rw [batchLoop_parsed_break args st st2 t page ev rest hpe] at hr
          simp only [requests, hp2, List.mem_singleton] at hr
          rw [hr, h0]
        | exit st2 =>
          rw [batchLoop_parsed_exit args st st2 t page ev rest hpe] at hr
          simp only [requests, hp2, List.mem_singleton] at hr
          rw [hr, h0]
    cases f with
    | newRequestFailed => simp [batchLoop, requests] at hq
    | sendFailed =>
      simp only [batchLoop, requests, List.mem_singleton] at hq
      rw [hq]; exact h0
    | rateLimited reset now =>
      rw [batchLoop_rateLimited] at hq
      simp only [requests, List.mem_cons] at hq
      rcases hq with hq | hq
      · rw [hq, h0]
      · rw [ih (setMaxId st) q hq]; exact h0
    | parseFailed results => rw [batchLoop_parseFailed] at hq; exact hpage results hq
    | parsed results => exact hpage results hq

theorem initState_since (args : Args) (fileLastID : String) :
    (initState args fileLastID).query.lookup "since_id"
      = if resolveSince args fileLastID ≠ "" then some (resolveSince args fileLastID)
        else none := by
  unfold initState
  by_cases h : resolveSince args fileLastID = ""
  · simp only [h, ne_eq, not_true_eq_false, if_false]
    rw [Values.lookup_Set_other _ _ _ _ (by decide), Values.lookup_Set_other _ _ _ _ (by decide)]
    rfl
  · simp only [h, ne_eq, not_false_eq_true, if_true]
    exact Values.lookup_Set_same _ _ _

theorem main_requests_since (args : Args) (w : World) (q : Values)
    (hq : q ∈ requests (main args w).events) :
    q.lookup "since_id"
      = if resolveSince args (loadLastID w.lastIdFile) ≠ ""
        then some (resolveSince args (loadLastID w.lastIdFile)) else none := by
  by_cases hc : w.credentials = true
  · rw [(main_events args w hc).1] at hq
    rw [batchLoop_requests_lookup args "since_id" (by decide) w.fetches _ q hq]
    exact initState_since args _
  · have hf : w.credentials = false := by simpa using hc
    rw [main_no_credentials args w hf] at hq
    simp [requests] at hq

/-- C8: every request of a run carries `since_id = s` when the since override
`s` is not empty, else `since_id = c` when the loaded cursor `c` is not empty,
else no `since_id` at all; so all the requests of a run agree on it. -/
theorem since_id_fixed (args : Args) (w : World) (q : Values)
    (hq : q ∈ requests (main args w).events) :
    q.lookup "since_id"
      = if args.SinceID ≠ "" then some args.SinceID
        else if loadLastID w.lastIdFile ≠ "" then some (loadLastID w.lastIdFile)
        else none := by
  rw [main_requests_since args w q hq]
  unfold resolveSince
  by_cases h1 : args.SinceID = ""
  · by_cases h2 : loadLastID w.lastIdFile = ""
    · simp [h1, h2]
    · simp [h1, h2]
  · simp [h1]

/-- C8 on a run that finds the cursor `107` and is given the override `50`:
both requests carry `since_id = 50`. -/
theorem since_id_fixed_witness :
    requests (main sinceArgs
        (cursorWorld "107\n" [Fetch.rateLimited 5 0, Fetch.parsed []])).events
      = [[("count", "100"), ("screen_name", "twitterapi"), ("since_id", "50")],
         [("count", "100"), ("screen_name", "twitterapi"), ("since_id", "50")]]
    ∧ Values.lookup [("count", "100"), ("screen_name", "twitterapi"), ("since_id", "50")]
        "since_id"
      = if sinceArgs.SinceID ≠ "" then some sinceArgs.SinceID
        else if loadLastID
            (cursorWorld "107\n" [Fetch.rateLimited 5 0, Fetch.parsed []]).lastIdFile ≠ ""
          then some (loadLastID
            (cursorWorld "107\n" [Fetch.rateLimited 5 0, Fetch.parsed []]).lastIdFile)
        else none :=
  ⟨by decide,
    since_id_fixed sinceArgs (cursorWorld "107\n" [Fetch.rateLimited 5 0, Fetch.parsed []])
      [("count", "100"), ("screen_name", "twitterapi"), ("since_id", "50")] (by decide)⟩

/-! ## Loading the cursor (C9) -/

theorem splitDelim_ne_nil (delim : Char) (s line tail : List Char)
    (h : splitDelim delim s = some (line, tail)) : line ≠ [] := by
  cases s with
  | nil => simp [splitDelim] at h
  | cons c cs =>
    unfold splitDelim at h
    by_cases hc : c = delim
    · simp only [hc, if_true, Option.some.injEq, Prod.mk.injEq] at h
      rw [← h.1]; simp
    · simp only [hc, if_false] at h
      split at h
      · simp only [Option.some.injEq, Prod.mk.injEq] at h
        rw [← h.1]; simp
      · cases h

theorem rsl_one (bf : Reader) :
    rsl (some bf) 1
      = match splitDelim '\n' bf.buf with
        | some (line, _) => Except.ok line
        | none => Except.error (if bf.broken then RslError.readFailed else RslError.noLines) := by
  have h1 : ¬ ((1 : Int) < 1) := by decide
  have h2 : (1 : Int).toNat = 0 + 1 := rfl
  simp only [rsl, h1, if_false, h2, rslLoop, Reader.ReadString]
  cases hsp : splitDelim '\n' bf.buf with
  | none => cases bf.broken <;> simp
  | some p =>
    obtain ⟨line, tail⟩ := p
    simp [splitDelim_ne_nil _ _ _ _ hsp]

theorem loadLastID_none : loadLastID none = "" := rfl

theorem loadLastID_no_line (bf : Reader) (h : splitDelim '\n' bf.buf = none) :
    loadLastID (some bf) = "" := by
  simp [loadLastID, rsl_one, h]

theorem loadLastID_line (bf : Reader) (line tail : List Char)
    (h : splitDelim '\n' bf.buf = some (line, tail)) :
    loadLastID (some bf) = String.mk (TrimSpace line) := by
  simp [loadLastID, rsl_one, h]

theorem String_mk_eq_empty (l : List Char) : String.mk l = "" ↔ l = [] := by
  constructor
  · intro h
    have := congrArg String.data h
    simpa using this
  · intro h; rw [h]

/-- C9 (as amended): in a run with no since override, no request carries a
`since_id` when the cursor file cannot be opened, when it holds no line that
ends in a newline (end of file or read error before one), or when its first
line is empty after trimming; otherwise every request carries the trimmed
first line as `since_id`, as it is: the line is not parsed as a number. -/
theorem cursor_loaded_verbatim (args : Args) (w : World) (q : Values)
    (hs : args.SinceID = "") (hq : q ∈ requests (main args w).events) :
    (w.lastIdFile = none → q.lookup "since_id" = none)
    ∧ (∀ bf, w.lastIdFile = some bf → splitDelim '\n' bf.buf = none →
        q.lookup "since_id" = none)
    ∧ (∀ bf line tail, w.lastIdFile = some bf →
        splitDelim '\n' bf.buf = some (line, tail) →
        q.lookup "since_id"
          = if TrimSpace line = [] then none else some (String.mk (TrimSpace line))) := by
  have hq2 := main_requests_since args w q hq
  have hres : ∀ c, resolveSince args c = c := by
    intro c
    unfold resolveSince
    by_cases hc : c = ""
    · simp [hs, hc]
    · simp [hs, hc]
  rw [hres] at hq2
  refine ⟨?_, ?_, ?_⟩
  · intro hf
    rw [hf, loadLastID_none] at hq2
    simpa using hq2
  · intro bf hf hsp
    rw [hf, loadLastID_no_line bf hsp] at hq2
    simpa using hq2
  · intro bf line tail hf hsp
    rw [hf, loadLastID_line bf line tail hsp] at hq2
    rw [hq2]
    by_cases ht : TrimSpace line = []
    · simp [ht, (String_mk_eq_empty _).2]
    · have : String.mk (TrimSpace line) ≠ "" := fun h => ht ((String_mk_eq_empty _).1 h)
      simp [ht, this]

/-- C9 (as amended) on a cursor file whose first line is ` 12x `: the request
carries `since_id = 12x`. -/
theorem cursor_loaded_verbatim_witness :
    defaultArgs.SinceID = ""
    ∧ requests (main defaultArgs (cursorWorld " 12x \nrest" [Fetch.parsed []])).events
        = [[("count", "100"), ("screen_name", "twitterapi"), ("since_id", "12x")]]
    ∧ Values.lookup [("count", "100"), ("screen_name", "twitterapi"), ("since_id", "12x")]
        "since_id"
        = if TrimSpace " 12x \n".data = [] then none
          else some (String.mk (TrimSpace " 12x \n".data)) :=
  ⟨rfl, by decide,
    (cursor_loaded_verbatim defaultArgs (cursorWorld " 12x \nrest" [Fetch.parsed []])
      [("count", "100"), ("screen_name", "twitterapi"), ("since_id", "12x")] rfl
      (by decide)).2.2 { buf := " 12x \nrest".data, broken := false } " 12x \n".data
      "rest".data rfl (by decide)⟩

/-- C9 fails as stated: the first line `abc` of the cursor file does not parse
as an unsigned 64-bit decimal identifier, yet the cursor is loaded and the run
with no since override sends `since_id = abc`. -/
theorem malformed_cursor_is_sent :
    parseUint64 (TrimSpace "abc\n".data) = none
    ∧ defaultArgs.SinceID = ""
    ∧ loadLastID (cursorWorld "abc\n" [Fetch.parsed []]).lastIdFile = "abc"
    ∧ requests (main defaultArgs (cursorWorld "abc\n" [Fetch.parsed []])).events
        = [[("count", "100"), ("screen_name", "twitterapi"), ("since_id", "abc")]] := by
  decide

/-! ## The parameter max_id (C10) -/

theorem processPage_next_max_id (args : Args) (page : List Tweet) :
    ∀ (st st2 : LoopState) (ev : List Event),
      processPage args st page = (PageEnd.next st2, ev) →
      st2.max_id = ((storedOf page).getLast?.map (fun t => subOne64 t.Id)).getD st.max_id
      ∧ st2.query = st.query := by
  induction page with
  | nil =>
    intro st st2 ev h
    rw [processPage_nil] at h
    simp only [Prod.mk.injEq, PageEnd.next.injEq] at h
    rw [← h.1]; simp [storedOf]
  | cons tweet rest ih =>
    intro st st2 ev h
    cases hs : tweet.sink with
    | marshalFailed =>
      rw [processPage_marshalFailed args st tweet rest hs] at h
      simp at h
    | createFailed =>
      rw [processPage_createFailed args st tweet rest hs] at h
      have h3 := ih st st2 ev h
      have hst : storedOf (tweet :: rest) = storedOf rest := by simp [storedOf, hs]
      rw [hst]; exact h3
    | written =>
      by_cases hc : st.total + 1 ≥ args.SetTotal
      · rw [processPage_written_break args st tweet rest hs hc] at h
        simp at h
      · rw [processPage_written_next args st tweet rest hs hc] at h
        simp only [Prod.mk.injEq] at h
        obtain ⟨h1, h2⟩ := ih (st.stored tweet) st2 _ (Prod.ext h.1 rfl)
        refine ⟨?_, by rw [h2, stored_query]⟩
        rw [h1, stored_max_id]
        have hst : storedOf (tweet :: rest) = tweet :: storedOf rest := by
          simp [storedOf, hs]
        rw [hst]
        cases hr : storedOf rest with
        | nil => simp
        | cons a l => simp [List.getLast?_eq_getLast _ (List.cons_ne_nil a l)]

/-- C10 (as amended): after a page that is processed to its end without
reaching the cap and whose last stored item is `t`, `max_id` is `t.Id - 1`
computed in `uint64`, that is `(t.Id + (2^64 - 1)) % 2^64` (so `2^64 - 1` for
the id zero).  For every id other than one the next request carries that
value, in decimal, as its `max_id`; for the id one the value is zero, which
the loop takes for "not set": the next request is built from the query as it
was before the page. -/
theorem next_max_id (args : Args) (st st2 : LoopState) (page : List Tweet)
    (ev : List Event) (t : Tweet)
    (hpage : processPage args st page = (PageEnd.next st2, ev))
    (hlast : (storedOf page).getLast? = some t) :
    st2.max_id = (t.Id + (2 ^ 64 - 1)) % 2 ^ 64
    ∧ (1 ≤ t.Id → st2.max_id = t.Id - 1)
    ∧ (t.Id = 0 → st2.max_id = 2 ^ 64 - 1)
    ∧ (t.Id ≠ 1 →
        (nextRequest st2).lookup "max_id" = some (Nat.repr ((t.Id + (2 ^ 64 - 1)) % 2 ^ 64)))
    ∧ (t.Id = 1 → nextRequest st2 = st.query) := by
  obtain ⟨h1, h2⟩ := processPage_next_max_id args page st st2 ev hpage
  rw [hlast] at h1
  simp only [Option.map_some', Option.getD_some] at h1
  have hlt := Tweet.Id_lt t
  have hmod := subOne64_eq_mod t.Id hlt
  have hsub : subOne64 t.Id = if t.Id = 0 then 2 ^ 64 - 1 else t.Id - 1 := rfl
  refine ⟨by rw [h1, hmod], ?_, ?_, ?_, ?_⟩
  · intro h
    rw [h1, hsub, if_neg (by omega)]
  · intro h
    rw [h1, hsub, if_pos h]
  · intro hne
    have hnz : st2.max_id ≠ 0 := by
      rw [h1, hsub]
      split <;> omega
    have hs : setMaxId st2
        = { st2 with query := st2.query.Set "max_id" (toString st2.max_id) } := by
      unfold setMaxId; rw [if_pos hnz]
    rw [nextRequest, hs]
    simp only []
    rw [Values.lookup_Set_same, h1, hmod]; rfl
  · intro h
    have hz : st2.max_id = 0 := by rw [h1, hsub, h]; rfl
    have hs : setMaxId st2 = st2 := by
      unfold setMaxId; rw [if_neg (by simp [hz])]
    rw [nextRequest, hs, h2]

/-- C10 (as amended) on the page `[109, 108]` under the default cap: the next
request carries `max_id = 107`. -/
theorem next_max_id_witness :
    processPage defaultArgs (initState defaultArgs "") (pageOf [109, 108])
      = (PageEnd.next { max_id := 107, tweet_id := 108, total := 2, query := defaultQuery },
          [Event.wrote 109 1, Event.wrote 108 2])
    ∧ (storedOf (pageOf [109, 108])).getLast? = some { rawId := 108, sink := SinkResult.written }
    ∧ (nextRequest { max_id := 107, tweet_id := 108, total := 2, query := defaultQuery }).lookup
        "max_id" = some "107" :=
  ⟨by decide, by decide,
    (next_max_id defaultArgs (initState defaultArgs "")
      { max_id := 107, tweet_id := 108, total := 2, query := defaultQuery }
      (pageOf [109, 108]) [Event.wrote 109 1, Event.wrote 108 2]
      { rawId := 108, sink := SinkResult.written } (by decide) (by decide)).2.2.2.1
      (by decide)⟩

/-- C10 fails as stated: after a page whose last stored item has id one the
next request carries no `max_id` (first run below), or still the `max_id` of
the page before (second run below, where the third request repeats the
second). -/
theorem max_id_zero_is_not_sent :
    requests (main defaultArgs (pagesWorld [[1], []])).events = [defaultQuery, defaultQuery]
    ∧ Values.lookup defaultQuery "max_id" = none
    ∧ requests (main defaultArgs (pagesWorld [[5], [1], []])).events
        = [defaultQuery,
           [("count", "100"), ("screen_name", "twitterapi"), ("max_id", "4")],
           [("count", "100"), ("screen_name", "twitterapi"), ("max_id", "4")]]
    ∧ writtenIds (main defaultArgs (pagesWorld [[5], [1], []])).events = [5, 1] := by
  decide

/-! ## Resuming from the persisted cursor (C3) -/

theorem digitChar_plain (d : Nat) (h : d < 10) :
    isSpace (Nat.digitChar d) = false ∧ Nat.digitChar d ≠ '\n' := by
  interval_cases d <;> decide

theorem toDigitsCore_plain (fuel : Nat) :
    ∀ (n : Nat) (ds : List Char), (∀ c ∈ ds, isSpace c = false ∧ c ≠ '\n') →
      ∀ c ∈ Nat.toDigitsCore 10 fuel n ds, isSpace c = false ∧ c ≠ '\n' := by
  induction fuel with
  | zero => intro n ds h c hc; exact h c (by simpa [Nat.toDigitsCore] using hc)
  | succ fuel ih =>
    intro n ds h c hc
    have hd := digitChar_plain (n % 10) (Nat.mod_lt _ (by decide))
    have hds : ∀ c ∈ Nat.digitChar (n % 10) :: ds, isSpace c = false ∧ c ≠ '\n' := by
      intro c hc
      rcases List.mem_cons.1 hc with h1 | h1
      · rw [h1]; exact hd
      · exact h c h1
    unfold Nat.toDigitsCore at hc
    by_cases hz : n / 10 = 0
    · simp only [hz, if_true] at hc
      exact hds c hc
    · simp only [hz, if_false] at hc
      exact ih _ _ hds c hc

theorem repr_plain (n : Nat) : ∀ c ∈ (Nat.repr n).data, isSpace c = false ∧ c ≠ '\n' := by
  intro c hc
  have : (Nat.repr n).data = Nat.toDigitsCore 10 (n + 1) n [] := rfl
  rw [this] at hc
  exact toDigitsCore_plain _ _ _ (by simp) c hc

theorem splitDelim_line (ds tail : List Char) (h : ∀ c ∈ ds, c ≠ '\n') :
    splitDelim '\n' (ds ++ '\n' :: tail) = some (ds ++ ['\n'], tail) := by
  induction ds with
  | nil => simp [splitDelim]
  | cons c cs ih =>
    have hc : c ≠ '\n' := h c (by simp)
    have := ih (fun x hx => h x (by simp [hx]))
    simp [splitDelim, hc, this]

theorem dropWhile_plain (ds : List Char) (h : ∀ c ∈ ds, isSpace c = false) :
    ds.dropWhile isSpace = ds := by
  cases ds with
  | nil => rfl
  | cons c cs => simp [List.dropWhile, h c (by simp)]

theorem TrimSpace_line (ds : List Char) (h : ∀ c ∈ ds, isSpace c = false) :
    TrimSpace (ds ++ ['\n']) = ds := by
  cases ds with
  | nil => decide
  | cons c cs =>
    unfold TrimSpace
    have h1 : (c :: cs ++ ['\n']).dropWhile isSpace = c :: cs ++ ['\n'] := by
      simp [List.dropWhile, h c (by simp)]
    have h2 : (c :: cs ++ ['\n']).reverse = '\n' :: (c :: cs).reverse := by simp
    have h3 : isSpace '\n' = true := by decide
    have h4 : ((c :: cs).reverse).dropWhile isSpace = (c :: cs).reverse :=
      dropWhile_plain _ (fun x hx => h x (List.mem_reverse.1 hx))
    rw [h1, h2, List.dropWhile_cons, if_pos h3, h4, List.reverse_reverse]

theorem loadLastID_repr (c : Nat) (broken : Bool) :
    loadLastID (some { buf := (Nat.repr c ++ "\n").data, broken := broken }) = Nat.repr c := by
  have hd : (Nat.repr c ++ "\n").data = (Nat.repr c).data ++ '\n' :: [] := by
    rw [String.data_append]
  have hp := repr_plain c
  rw [loadLastID_line _ ((Nat.repr c).data ++ ['\n']) []
    (by rw [hd]; exact splitDelim_line _ _ (fun x hx => (hp x hx).2))]
  rw [TrimSpace_line _ (fun x hx => (hp x hx).1)]

theorem processPage_written_mem (args : Args) (page : List Tweet) :
    ∀ (st : LoopState), ∀ i ∈ writtenIds (processPage args st page).2,
      ∃ t ∈ page, t.Id = i := by
  induction page with
  | nil => intro st i hi; rw [processPage_nil] at hi; simp [writtenIds] at hi
  | cons tweet rest ih =>
    intro st i hi
    cases hs : tweet.sink with
    | marshalFailed =>
      rw [processPage_marshalFailed args st tweet rest hs] at hi
      simp [writtenIds] at hi
    | createFailed =>
      rw [processPage_createFailed args st tweet rest hs] at hi
      obtain ⟨t, ht, hid⟩ := ih st i hi
      exact ⟨t, List.mem_cons_of_mem _ ht, hid⟩
    | written =>
      by_cases hc : st.total + 1 ≥ args.SetTotal
      · rw [processPage_written_break args st tweet rest hs hc] at hi
        simp only [writtenIds, List.mem_singleton] at hi
        exact ⟨tweet, List.mem_cons_self _ _, hi.symm⟩
      · rw [processPage_written_next args st tweet rest hs hc] at hi
        simp only [writtenIds, List.mem_cons] at hi
        rcases hi with hi | hi
        · exact ⟨tweet, List.mem_cons_self _ _, hi.symm⟩
        · obtain ⟨t, ht, hid⟩ := ih _ i hi
          exact ⟨t, List.mem_cons_of_mem _ ht, hid⟩

theorem batchLoop_written_mem (args : Args) (fetches : List Fetch) :
    ∀ (st : LoopState), ∀ i ∈ writtenIds (batchLoop args st fetches).2,
      ∃ q f, (q, f) ∈ List.zip (requests (batchLoop args st fetches).2) fetches
        ∧ ∃ t ∈ f.results, t.Id = i := by
  induction fetches with
  | nil => intro st i hi; simp [batchLoop, writtenIds] at hi
  | cons f rest ih =>
    intro st i hi
    have hpage : ∀ (results : List Tweet) (f0 : Fetch), f0.results = results →
        batchLoop args st (f0 :: rest) = batchLoop args st (Fetch.parsed results :: rest) →
        i ∈ writtenIds (batchLoop args st (Fetch.parsed results :: rest)).2 →
        ∃ q f, (q, f) ∈ List.zip
            (requests (batchLoop args st (f0 :: rest)).2) (f0 :: rest)
          ∧ ∃ t ∈ f.results, t.Id = i := by
      intro results f0 hres hf0 hr
      rw [hf0]
      cases results with
      | nil => simp [batchLoop_parsed_nil, writtenIds] at hr
      | cons t page =>
        have hq := (processPage_query args (t :: page) (setMaxId st)).2
        have hm := processPage_written_mem args (t :: page) (setMaxId st) i
        rcases hpe : processPage args (setMaxId st) (t :: page) with ⟨e, ev⟩
        rw [hpe] at hq hm
        simp only at hq hm
        have hhead : i ∈ writtenIds ev →
            ∀ l : List Values, ∃ q f,
              (q, f) ∈ List.zip (nextRequest st :: l) (f0 :: rest)
              ∧ ∃ t ∈ f.results, t.Id = i := by
          intro h l
          exact ⟨nextRequest st, f0, by simp, by rw [hres]; exact hm h⟩
        cases e with
        | next st2 =>
          rw [batchLoop_parsed_next args st st2 t page ev rest hpe] at hr ⊢
          simp only [writtenIds, writtenIds_append, List.mem_append] at hr
          simp only [requests, requests_append, hq, List.nil_append]
          rcases hr with hr | hr
          · exact hhead hr _
          · obtain ⟨q, f, hmem, ht⟩ := ih st2 i hr
            exact ⟨q, f, by simp [hmem], ht⟩
        | breakLoop st2 =>
          rw [batchLoop_parsed_break args st st2 t page ev rest hpe] at hr ⊢
          simp only [writtenIds] at hr
          simp only [requests, hq]
          exact hhead hr _
        | exit st2 =>
          rw [batchLoop_parsed_exit args st st2 t page ev rest hpe] at hr ⊢
          simp only [writtenIds] at hr
          simp only [requests, hq]
          exact hhead hr _
    cases f with
    | newRequestFailed => simp [batchLoop, writtenIds] at hi
    | sendFailed => simp [batchLoop, writtenIds] at hi
    | rateLimited reset now =>
      rw [batchLoop_rateLimited] at hi ⊢
      simp only [writtenIds] at hi
      obtain ⟨q, f, hmem, ht⟩ := ih (setMaxId st) i hi
      exact ⟨q, f, by simp [requests, hmem], ht⟩
    | parseFailed results =>
      exact hpage results _ rfl (batchLoop_parseFailed args st results rest)
        (by rw [← batchLoop_parseFailed]; exact hi)
    | parsed results => exact hpage results _ rfl rfl hi

theorem toDigitsCore_ne_nil (fuel : Nat) :
    ∀ (n : Nat) (ds : List Char), ds ≠ [] → Nat.toDigitsCore 10 fuel n ds ≠ [] := by
  induction fuel with
  | zero => intro n ds h; simpa [Nat.toDigitsCore] using h
  | succ fuel ih =>
    intro n ds _
    unfold Nat.toDigitsCore
    by_cases hz : n / 10 = 0
    · simp only [hz, if_true]; exact List.cons_ne_nil _ _
    · simp only [hz, if_false]; exact ih _ _ (List.cons_ne_nil _ _)

theorem repr_ne_empty (n : Nat) : Nat.repr n ≠ "" := by
  intro h
  have hd : (Nat.repr n).data = [] := by rw [h]
  have h1 : (Nat.repr n).data = Nat.toDigitsCore 10 (n + 1) n [] := rfl
  rw [h1] at hd
  unfold Nat.toDigitsCore at hd
  by_cases hz : n / 10 = 0
  · simp only [hz, if_true] at hd
    exact List.cons_ne_nil _ _ hd
  · simp only [hz, if_false] at hd
    exact toDigitsCore_ne_nil _ _ _ (List.cons_ne_nil _ _) hd

theorem main_written_mem (args : Args) (w : World) (i : Nat)
    (hi : i ∈ writtenIds (main args w).events) :
    ∃ q f, (q, f) ∈ exchanges w (main args w) ∧ ∃ t ∈ f.results, t.Id = i := by
  by_cases hc : w.credentials = true
  · have hev := (main_events args w hc).1
    unfold exchanges
    rw [hev] at hi ⊢
    exact batchLoop_written_mem args w.fetches _ i hi
  · have hf : w.credentials = false := by simpa using hc
    rw [main_no_credentials args w hf] at hi
    simp [writtenIds] at hi

theorem exchanges_request (w : World) (r : Run) (q : Values) (f : Fetch)
    (h : (q, f) ∈ exchanges w r) : q ∈ requests r.events :=
  (List.of_mem_zip h).1

/-- C3 (as amended): let a prior run have written at least one item, the last
one with id `c`, and persisted its cursor, and let a following run with no
since override find that cursor file.  Then the cursor file holds the decimal
of `c`, every request of the following run carries it as `since_id`, and
against an API that answers such requests only with items of an id strictly
greater than `c`, every item the following run fetches or writes has an id
strictly greater than `c`: it fetches again neither the last item the prior
run wrote nor any older one. -/
theorem resume_fetches_above_cursor (args1 args2 : Args) (w1 w2 : World)
    (content : String) (c : Nat) (broken : Bool)
    (hsaved : (main args1 w1).lastIdWrite = some content)
    (hwrote : (writtenIds (main args1 w1).events).getLast? = some c)
    (hfile : w2.lastIdFile = some { buf := content.data, broken := broken })
    (hs : args2.SinceID = "")
    (hapi : ∀ q f, (q, f) ∈ exchanges w2 (main args2 w2) →
      q.lookup "since_id" = some (Nat.repr c) → ∀ t ∈ f.results, c < t.Id) :
    content = Nat.repr c ++ "\n"
    ∧ (∀ q ∈ requests (main args2 w2).events, q.lookup "since_id" = some (Nat.repr c))
    ∧ (∀ q f, (q, f) ∈ exchanges w2 (main args2 w2) → ∀ t ∈ f.results, c < t.Id)
    ∧ (∀ i ∈ writtenIds (main args2 w2).events, c < i) := by
  -- the prior run left the loop by a break and saved `c`
  have hdone : ∃ st, (main args1 w1).loopEnd = some (LoopEnd.done st) := by
    by_contra hno
    have := main_lastIdWrite_not_done args1 w1 (fun st h => hno ⟨st, h⟩)
    rw [this] at hsaved
    cases hsaved
  obtain ⟨st, hst⟩ := hdone
  have hid : st.tweet_id = c := by
    have := main_tweet_id args1 w1 _ hst
    simpa [LoopEnd.state, hwrote] using this
  have hcontent : content = Nat.repr c ++ "\n" := by
    have hw := main_lastIdWrite_done args1 w1 st hst
    rw [hsaved, hid, saveLastID] at hw
    split at hw
    · cases hw; rfl
    · cases hw
  -- the following run loads it and sends it on every request
  have hload : loadLastID w2.lastIdFile = Nat.repr c := by
    rw [hfile, hcontent]; exact loadLastID_repr c broken
  have hne : Nat.repr c ≠ "" := repr_ne_empty c
  have hreq : ∀ q ∈ requests (main args2 w2).events,
      q.lookup "since_id" = some (Nat.repr c) := by
    intro q hq
    rw [main_requests_since args2 w2 q hq, hload]
    have hres : resolveSince args2 (Nat.repr c) = Nat.repr c := by
      unfold resolveSince
      simp [hs, hne]
    rw [hres, if_pos hne]
  have hfetch : ∀ q f, (q, f) ∈ exchanges w2 (main args2 w2) → ∀ t ∈ f.results, c < t.Id :=
    fun q f hqf => hapi q f hqf (hreq q (exchanges_request _ _ q f hqf))
  refine ⟨hcontent, hreq, hfetch, ?_⟩
  intro i hi
  obtain ⟨q, f, hqf, t, ht, hti⟩ := main_written_mem args2 w2 i hi
  rw [← hti]
  exact hfetch q f hqf t ht

/-- C3 (as amended) on the scenario of the specification: the prior run
persists `107`, and the following run, answered with the items above 107,
writes only items above 107. -/
theorem resume_fetches_above_cursor_witness :
    (main capThreeArgs priorWorld).lastIdWrite = some "107\n"
    ∧ (writtenIds (main capThreeArgs priorWorld).events).getLast? = some 107
    ∧ defaultArgs.SinceID = ""
    ∧ (∀ p ∈ exchanges newerWorld (main defaultArgs newerWorld),
        ∀ t ∈ p.2.results, 107 < t.Id)
    ∧ (∀ i ∈ writtenIds (main defaultArgs newerWorld).events, 107 < i) :=
  ⟨by decide, by decide, rfl, by decide,
    (resume_fetches_above_cursor capThreeArgs defaultArgs priorWorld newerWorld "107\n" 107
      false (by decide) (by decide) rfl rfl
      (fun q f h _ t ht =>
        (by decide : ∀ p ∈ exchanges newerWorld (main defaultArgs newerWorld),
          ∀ t ∈ p.2.results, 107 < t.Id) (q, f) h t ht)).2.2.2⟩

/-- C3 fails as stated: the prior run fetches the timeline 109 to 105, writes
109, 108, 107 and persists 107, the id of the last item written, which is the
oldest one.  The following run sends `since_id = 107`; the API, answering as
required, returns 109 and 108, which the prior run had fetched already. -/
theorem resume_refetches_newer_items :
    priorWorld.fetches
      = apiAnswers sampleTimeline (requests (main capThreeArgs priorWorld).events)
    ∧ fetchedIds priorWorld (main capThreeArgs priorWorld) = [109, 108, 107, 106, 105]
    ∧ writtenIds (main capThreeArgs priorWorld).events = [109, 108, 107]
    ∧ (main capThreeArgs priorWorld).lastIdWrite = some "107\n"
    ∧ capThreeArgs.SinceID = ""
    ∧ followingWorld.lastIdFile = some { buf := "107\n".data, broken := false }
    ∧ followingWorld.fetches
      = apiAnswers sampleTimeline (requests (main capThreeArgs followingWorld).events)
    ∧ requests (main capThreeArgs followingWorld).events
      = [[("count", "100"), ("screen_name", "twitterapi"), ("since_id", "107")],
         [("count", "100"), ("screen_name", "twitterapi"), ("since_id", "107"),
          ("max_id", "107")]]
    ∧ fetchedIds followingWorld (main capThreeArgs followingWorld) = [109, 108]
    ∧ 109 ∈ fetchedIds priorWorld (main capThreeArgs priorWorld)
    ∧ 109 ∈ fetchedIds followingWorld (main capThreeArgs followingWorld) := by
  decide

end Timeline
